import Mathlib

/-!
Verification of `scripts/generate_repo.py` (rpm-repo repository generator).

This file gives a shallow embedding of the script's pure logic and of its
stateful parts (the packages directory is modelled as the list of entry
names it contains; the manifest as a list of `RpmPackage` records), and
proves the stated properties of the Architecture Classifier, the Release
Selector, the Manifest Reconciler, the fetch loop's error behaviour, the
cleanup step and the `.repo` descriptor generator.

Conventions of the embedding:
  - Python strings/ints become `String`/`Nat`; Python `None`-able values
    become `Option`.
  - the compiled user-supplied regular expression `project.asset_pattern`
    is external to the script (Python `re`), so it is modelled as an
    abstract predicate `Option (String → Bool)`; the fixed architecture
    patterns of `ARCH_PATTERNS` are literal substrings except `x86[^_]`,
    and are embedded concretely.
  - `sorted(keys, key=..., reverse=True)` (a stable descending sort) is
    modelled by `List.insertionSort` with the reflexive descending
    comparison on the numeric keys, which is the same stable sort.
  - filesystem effects (`download_file` creating a file, `unlink`
    removing one) become explicit transformations of the entry-name list.
-/

namespace RpmRepo

/-- Embeds the dataclass `RpmPackage` of `generate_repo.py`. -/
structure RpmPackage where
  name : String
  version : String
  architecture : String
  url : String
  filename : String
  project_repo : String := ""
  size : Nat := 0
  sha256 : String := ""
  summary : String := ""
  description : String := ""
  license : String := ""
  vendor : String := ""
  homepage : String := ""
  deriving DecidableEq

/-- Embeds the dataclass `Release`. -/
structure Release where
  tag : String
  version : String
  major_minor : String
  packages : List RpmPackage := []

/-- Embeds the dataclass `Project`; the optional compiled regex
`asset_pattern` (external `re` engine) is an abstract predicate, `none`
standing for the falsy empty pattern string. -/
structure Project where
  repo : String
  name : String := ""
  description : String := ""
  keep_versions : Nat := 0
  asset_pattern : Option (String → Bool) := none

/-- Embeds the dataclass `RepoSettings`. -/
structure RepoSettings where
  name : String := "github-packages"
  baseurl : String := ""
  architectures : List String := ["x86_64", "aarch64"]
  description : String := "GitHub Packages"
  sign_packages : Bool := true

/-- Embeds one element of a release's `assets` list as used by
`find_rpm_assets` (fields `name`, `browser_download_url`, `size`). -/
structure AssetData where
  name : String
  browser_download_url : String
  size : Nat

/-- Embeds the provider release JSON object as consumed by
`fetch_releases` (fields `tag_name`, `prerelease`, `draft`, `assets`). -/
structure ReleaseData where
  tag_name : String
  prerelease : Bool
  draft : Bool
  assets : List AssetData

/-- Embeds the dictionaries produced by `find_rpm_assets`. -/
structure MatchedAsset where
  name : String
  url : String
  size : Nat
  architecture : String

/-- Does `sub` occur as a contiguous block at some position of the
character list? -/
def containsSubstrAux (sub : List Char) : List Char → Bool
  | [] => sub.isEmpty
  | c :: rest => sub.isPrefixOf (c :: rest) || containsSubstrAux sub rest

/-- Python `sub in s` (substring containment), used for the literal
architecture patterns and the source-rpm markers. -/
def containsSubstr (s sub : String) : Bool :=
  containsSubstrAux sub.toList s.toList

/-- Python `s.lower()` as a character list (the filenames handled by the
script are ASCII, where `Char.toLower` agrees with Python `lower`). -/
def lowerChars (s : String) : List Char :=
  s.toList.map Char.toLower

/-- Substring containment on an already-lowercased character list. -/
def containsPat (f : List Char) (sub : String) : Bool :=
  containsSubstrAux sub.toList f

/-- Does the regex `x86[^_]` match at the head of the character list? -/
def bareX86At : List Char → Bool
  | 'x' :: '8' :: '6' :: c :: _ => !(c == '_')
  | _ => false

/-- Does `re.search("x86[^_]", ·)` succeed, i.e. does `x86[^_]` match at
some position of the character list? -/
def bareX86 : List Char → Bool
  | [] => false
  | c :: rest => bareX86At (c :: rest) || bareX86 rest

/-- Embeds `detect_architecture`: lowercase the filename, then walk
`ARCH_PATTERNS` in its (insertion-ordered) declaration order and return
the first architecture one of whose patterns matches. -/
def detect_architecture (filename : String) : Option String :=
  let f := lowerChars filename
  if containsPat f "x86_64" || containsPat f "amd64" || containsPat f "x64" then
    some "x86_64"
  else if containsPat f "aarch64" || containsPat f "arm64" then
    some "aarch64"
  else if containsPat f "i686" || containsPat f "i386" || bareX86 f then
    some "i686"
  else if containsPat f "armv7hl" || containsPat f "armhf" then
    some "armv7hl"
  else if containsPat f "noarch" then
    some "noarch"
  else
    none

/-- Embeds `extract_version`: `tag.lstrip("vV")` strips every leading
`v`/`V` character. -/
def extract_version (tag : String) : String :=
  String.mk (tag.toList.dropWhile (fun c => c == 'v' || c == 'V'))

/-- Python `s.split(".")` on character lists: split at every dot,
preserving empty pieces (`"".split(".") == [""]`). -/
def splitDotAux : List Char → List Char → List (List Char)
  | acc, [] => [acc.reverse]
  | acc, c :: rest =>
    if c == '.' then acc.reverse :: splitDotAux [] rest
    else splitDotAux (c :: acc) rest

/-- Python `version.split(".")`. -/
def splitDot (s : String) : List (List Char) :=
  splitDotAux [] s.toList

/-- Embeds `extract_major_minor`: the first two dot-components joined by
a dot when there are at least two, the version unchanged otherwise. -/
def extract_major_minor (version : String) : String :=
  match splitDot version with
  | a :: b :: _ => String.mk a ++ "." ++ String.mk b
  | _ => version

/-- Numeric value of a digit string (the value `int(x)` computes when
`x.isdigit()` holds). -/
def digitsToNat (l : List Char) : Nat :=
  l.foldl (fun n c => n * 10 + (c.toNat - 48)) 0

/-- Embeds `int(x) if x.isdigit() else 0` from the sort key of
`fetch_releases`. -/
def pyDigitVal (x : List Char) : Nat :=
  if !x.isEmpty && x.all (fun c => c.isDigit) then digitsToNat x else 0

/-- Embeds the sort key `[int(x) if x.isdigit() else 0 for x in v.split(".")]`. -/
def versionKey (v : String) : List Nat :=
  (splitDot v).map pyDigitVal

/-- Python list comparison `x <= y` on `List Nat` (lexicographic,
element-wise, a strict prefix is smaller). -/
def lexLe : List Nat → List Nat → Bool
  | [], _ => true
  | _ :: _, [] => false
  | a :: as, b :: bs =>
    if a < b then true
    else if b < a then false
    else lexLe as bs

/-- The comparison realised by `sorted(..., key=versionKey, reverse=True)`:
`a` comes no later than `b` iff the key of `b` is lexicographically at
most the key of `a`. -/
def bucketGE (a b : String) : Prop :=
  lexLe (versionKey b) (versionKey a) = true

instance : DecidableRel bucketGE := fun a b =>
  inferInstanceAs (Decidable (lexLe (versionKey b) (versionKey a) = true))

instance : IsTotal String bucketGE where
  total a b := by
    show lexLe (versionKey b) (versionKey a) = true ∨
      lexLe (versionKey a) (versionKey b) = true
    generalize versionKey b = x
    generalize versionKey a = y
    induction x generalizing y with
    | nil => left; rfl
    | cons a as ih =>
      cases y with
      | nil => right; rfl
      | cons b bs =>
        rcases Nat.lt_trichotomy a b with h | h | h
        · left; simp [lexLe, h]
        · subst h
          rcases ih bs with h2 | h2
          · left; simp [lexLe, Nat.lt_irrefl, h2]
          · right; simp [lexLe, Nat.lt_irrefl, h2]
        · right; simp [lexLe, h]

instance : IsTrans String bucketGE where
  trans p q s hab hbc := by
    have key : ∀ x y z : List Nat,
        lexLe x y = true → lexLe y z = true → lexLe x z = true := by
      intro x
      induction x with
      | nil => intro y z _ _; rfl
      | cons a as ih =>
        intro y z hxy hyz
        cases y with
        | nil => simp [lexLe] at hxy
        | cons b bs =>
          cases z with
          | nil => simp [lexLe] at hyz
          | cons c cs =>
            simp only [lexLe] at hxy hyz ⊢
            by_cases h1 : a < b
            · by_cases h2 : b < c
              · have hac : a < c := Nat.lt_trans h1 h2
                simp [hac]
              · rw [if_neg h2] at hyz
                by_cases h3 : c < b
                · rw [if_pos h3] at hyz; simp at hyz
                · have hbc2 : b = c :=
                    Nat.le_antisymm (Nat.le_of_not_lt h3) (Nat.le_of_not_lt h2)
                  have hac : a < c := hbc2 ▸ h1
                  simp [hac]
            · by_cases h1b : b < a
              · rw [if_neg h1, if_pos h1b] at hxy; simp at hxy
              · have hab2 : a = b :=
                  Nat.le_antisymm (Nat.le_of_not_lt h1b) (Nat.le_of_not_lt h1)
                rw [if_neg h1, if_neg h1b] at hxy
                subst hab2
                by_cases h2 : a < c
                · simp [h2]
                · by_cases h3 : c < a
                  · rw [if_neg h2, if_pos h3] at hyz; simp at hyz
                  · rw [if_neg h2, if_neg h3] at hyz
                    rw [if_neg h2, if_neg h3]
                    exact ih bs cs hxy hyz
    exact key _ _ _ hbc hab

/-- Embeds `sorted(releases_by_minor.keys(), key=..., reverse=True)`:
a stable descending sort by the numeric version key (insertion sort with
the reflexive descending comparison is exactly that stable sort). -/
def sortVersionsDesc (keys : List String) : List String :=
  List.insertionSort bucketGE keys

/-- Python `s.endswith(suf)`, computed on character lists. -/
def pyEndsWith (s suf : String) : Bool :=
  suf.toList.reverse.isPrefixOf s.toList.reverse

/-- Python truthiness test `if project.asset_pattern:` followed by
`re.search(project.asset_pattern, name, re.IGNORECASE)`; the compiled
case-insensitive regex is the abstract predicate. -/
def matchesAssetPattern (project : Project) (name : String) : Bool :=
  match project.asset_pattern with
  | some f => f name
  | none => true

/-- Embeds `find_rpm_assets`: keep an asset iff its name ends in `.rpm`,
is not a source rpm (`.src.rpm`/`.srpm` marker), passes the project's
optional pattern, and classifies to an architecture in the allow-list. -/
def find_rpm_assets (release_data : ReleaseData) (project : Project)
    (architectures : List String) : List MatchedAsset :=
  release_data.assets.filterMap (fun asset =>
    if !(pyEndsWith asset.name ".rpm") then none
    else if containsSubstr asset.name ".src.rpm" || containsSubstr asset.name ".srpm" then none
    else if !(matchesAssetPattern project asset.name) then none
    else
      match detect_architecture asset.name with
      | some arch =>
        if architectures.contains arch then
          some { name := asset.name, url := asset.browser_download_url,
                 size := asset.size, architecture := arch }
        else none
      | none => none)

/-- Embeds the `releases_by_minor` grouping loop of `fetch_releases`:
skip prereleases and drafts, key by `extract_major_minor`, keep the
first (newest, the provider lists newest first) release per key; Python
dicts preserve insertion order, modelled by an association list. -/
def groupByMinor (releases_data : List ReleaseData) : List (String × ReleaseData) :=
  releases_data.foldl (fun acc release_data =>
    if release_data.prerelease || release_data.draft then acc
    else
      let mm := extract_major_minor (extract_version release_data.tag_name)
      if acc.any (fun p => p.1 == mm) then acc
      else acc ++ [(mm, release_data)]) []

/-- Embeds the pure part of `fetch_releases` (the provider call and the
repo-description fallback are I/O; the already-fetched release list and
resolved description come in as arguments): group by major.minor, sort
descending, keep `keep_versions + 1` buckets (one when `keep_versions`
is 0), match assets, and drop bucket releases with no matching asset. -/
def fetch_releases (releases_data : List ReleaseData) (project : Project)
    (settings : RepoSettings) (description : String) : List Release :=
  let releases_by_minor := groupByMinor releases_data
  let sorted_versions := sortVersionsDesc (releases_by_minor.map Prod.fst)
  let versions_to_keep :=
    if project.keep_versions > 0 then sorted_versions.take (project.keep_versions + 1)
    else sorted_versions.take 1
  versions_to_keep.filterMap (fun major_minor =>
    match releases_by_minor.find? (fun p => p.1 == major_minor) with
    | none => none
    | some pr =>
      let release_data := pr.2
      let tag := release_data.tag_name
      let version := extract_version tag
      let rpm_assets := find_rpm_assets release_data project settings.architectures
      if rpm_assets.isEmpty then none
      else
        some { tag := tag, version := version, major_minor := major_minor,
               packages := rpm_assets.map (fun asset =>
                 { name := project.name, version := version,
                   architecture := asset.architecture, url := asset.url,
                   filename := asset.name, size := asset.size,
                   project_repo := project.repo, summary := description,
                   homepage := "https://github.com/" ++ project.repo }) })

/-- A release of the example feed used for the Release Selector bound. -/
def exampleRelease (tag fn : String) : ReleaseData :=
  { tag_name := tag, prerelease := false, draft := false,
    assets := [{ name := fn, browser_download_url := "https://dl/" ++ fn, size := 1 }] }

/-- Five distinct major.minor buckets, each with a matching x86_64 asset. -/
def exampleReleases : List ReleaseData :=
  [exampleRelease "v2.1.0" "app-2.1.0-x86_64.rpm",
   exampleRelease "v2.0.0" "app-2.0.0-x86_64.rpm",
   exampleRelease "v1.2.0" "app-1.2.0-x86_64.rpm",
   exampleRelease "v1.1.0" "app-1.1.0-x86_64.rpm",
   exampleRelease "v1.0.0" "app-1.0.0-x86_64.rpm"]

/-- Example settings allowing only x86_64. -/
def exampleSettings : RepoSettings :=
  { name := "gp", baseurl := "http://host/repo", architectures := ["x86_64"],
    description := "d", sign_packages := true }

/-- Example project with a configurable keep window. -/
def exampleProject (kv : Nat) : Project :=
  { repo := "owner/app", name := "app", keep_versions := kv }

/-- Embeds the `preserved_packages` computation of `main`: the existing
manifest records whose `project_repo` is not among the identifiers of
the projects being updated. -/
def preservedPackages (existing_packages : List RpmPackage)
    (projects_to_update : List String) : List RpmPackage :=
  existing_packages.filter (fun pkg => !(projects_to_update.contains pkg.project_repo))

/-- Embeds `all_packages = preserved_packages + new_packages` of `main`:
the final package set written to the manifest. -/
def reconcileFinal (existing_packages : List RpmPackage)
    (projects_to_update : List String) (new_packages : List RpmPackage) : List RpmPackage :=
  preservedPackages existing_packages projects_to_update ++ new_packages

/-- Embeds the loop of `cleanup_old_packages` on the entry names of the
packages directory: an entry matching `*.rpm` whose name is not a
current filename is unlinked and recorded; the first component is what
remains on disk, the second the removed list the function returns. -/
def cleanupLoop (dir_entries current_filenames : List String) : List String × List String :=
  match dir_entries with
  | [] => ([], [])
  | f :: rest =>
    let r := cleanupLoop rest current_filenames
    if pyEndsWith f ".rpm" && !(current_filenames.contains f) then (r.1, f :: r.2)
    else (f :: r.1, r.2)

/-- Embeds `cleanup_old_packages`: build the set of current filenames
from `all_packages` and sweep the packages directory. -/
def cleanup_old_packages (dir_entries : List String)
    (all_packages : List RpmPackage) : List String × List String :=
  cleanupLoop dir_entries (all_packages.map (fun pkg => pkg.filename))

/-- A sample one-package manifest entry used by concrete witnesses. -/
def toolPkg : RpmPackage :=
  { name := "tool", version := "1.0", architecture := "x86_64",
    url := "u", filename := "tool-1.0.x86_64.rpm" }

/-- A sample package owned by project `owner/a`. -/
def pkgOwnerA : RpmPackage :=
  { name := "a", version := "1.0", architecture := "x86_64",
    url := "ua", filename := "a-1.0.x86_64.rpm", project_repo := "owner/a" }

/-- A sample package owned by project `owner/b`. -/
def pkgOwnerB : RpmPackage :=
  { name := "b", version := "1.0", architecture := "x86_64",
    url := "ub", filename := "b-1.0.x86_64.rpm", project_repo := "owner/b" }

/-- Embeds the per-project package loop of `main` (lines downloading,
signing and collecting each selected package). State is the entry-name
list of the packages directory. For each package in order: if its file
exists the download is skipped; otherwise `download_file` either creates
the file (`download_ok` its url) or raises — the exception is caught by
the per-project `except`, so the remaining packages of the project are
skipped while the packages collected so far and the directory state
persist. A fresh download is signed when signing is enabled;
`sign_rpm_package` returns `False` on failure and `main` only logs it, a
warning modelled by the third component. Components: the packages
appended to `new_packages`, the directory entries afterwards, and the
signing warnings. -/
def processPackages (pkgs : List RpmPackage) (dir_entries : List String)
    (download_ok : String → Bool) (sign_enabled : Bool) (sign_ok : String → Bool) :
    List RpmPackage × List String × List String :=
  match pkgs with
  | [] => ([], dir_entries, [])
  | pkg :: rest =>
    if dir_entries.contains pkg.filename then
      let r := processPackages rest dir_entries download_ok sign_enabled sign_ok
      (pkg :: r.1, r.2.1, r.2.2)
    else if download_ok pkg.url then
      let warn := if sign_enabled && !(sign_ok pkg.filename) then
        ["Failed to sign " ++ pkg.filename] else []
      let r := processPackages rest (pkg.filename :: dir_entries) download_ok sign_enabled sign_ok
      (pkg :: r.1, r.2.1, warn ++ r.2.2)
    else ([], dir_entries, [])

/-- First package of the two-package project used in the C4 input. -/
def pkgFirst : RpmPackage :=
  { name := "p1", version := "1.0", architecture := "x86_64",
    url := "u1", filename := "p1-1.0.x86_64.rpm", project_repo := "owner/p" }

/-- Second package of the two-package project used in the C4 input. -/
def pkgSecond : RpmPackage :=
  { name := "p2", version := "1.0", architecture := "x86_64",
    url := "u2", filename := "p2-1.0.x86_64.rpm", project_repo := "owner/p" }

/-- Python `settings.baseurl.rstrip("/")`: remove every trailing slash. -/
def rstripSlash (s : String) : String :=
  String.mk ((s.data.reverse.dropWhile (fun c => c == '/')).reverse)

/-- Python truthiness of the `gpg_key: Optional[str]` argument as tested
by `if gpg_key:` (None and the empty string are falsy). -/
def gpgKeyTruthy : Option String → Bool
  | some k => !(k == "")
  | none => false

/-- Embeds `generate_repo_file` as the list of lines of the emitted
`.repo` descriptor (the script joins them with newlines and
`content.strip() + "\n"` merely normalises the trailing newline). The
three mutually exclusive GPG stanzas mirror the source branches on
`gpg_key` truthiness and `sign_packages`. -/
def generate_repo_file (settings : RepoSettings) (gpg_key : Option String)
    (sign_packages : Bool) : List String :=
  let packages_url := rstripSlash settings.baseurl ++ "/packages"
  let gpg_lines :=
    if gpgKeyTruthy gpg_key then
      if sign_packages then
        ["gpgcheck=1", "repo_gpgcheck=1",
         "gpgkey=" ++ settings.baseurl ++ "/RPM-GPG-KEY-" ++ settings.name]
      else
        ["gpgcheck=0", "repo_gpgcheck=1",
         "gpgkey=" ++ settings.baseurl ++ "/RPM-GPG-KEY-" ++ settings.name]
    else ["gpgcheck=0"]
  ["[" ++ settings.name ++ "]",
   "name=" ++ settings.description,
   "baseurl=" ++ packages_url,
   "enabled=1"] ++ gpg_lines

/-- Example settings used by the descriptor witness. -/
def exSettings : RepoSettings :=
  { name := "gp", baseurl := "http://x/", architectures := ["x86_64"],
    description := "desc", sign_packages := true }

/-- C7: the Architecture Classifier is a pure function testing the tags
in declared priority order; on the spec's examples it returns `x86_64`,
`i686`, `noarch` and `none` respectively, and any filename matching an
`x86_64` pattern is classified `x86_64` regardless of other matches. -/
theorem detect_architecture_spec :
    detect_architecture "app-1.0-x86_64.rpm" = some "x86_64" ∧
    detect_architecture "app-1.0.i686.rpm" = some "i686" ∧
    detect_architecture "app-1.0.noarch.rpm" = some "noarch" ∧
    detect_architecture "app-1.0.deb" = none ∧
    ∀ fn : String,
      (containsPat (lowerChars fn) "x86_64" || containsPat (lowerChars fn) "amd64" ||
        containsPat (lowerChars fn) "x64") = true →
      detect_architecture fn = some "x86_64" := by
  refine ⟨by decide, by decide, by decide, by decide, ?_⟩
  intro fn h
  simp only [detect_architecture]
  rw [if_pos h]

/-- Witness for `detect_architecture_spec` at the concrete filename
`tool-9.9-amd64.rpm`. -/
theorem detect_architecture_spec_witness :
    detect_architecture "tool-9.9-amd64.rpm" = some "x86_64" :=
  detect_architecture_spec.2.2.2.2 "tool-9.9-amd64.rpm" (by decide)

/-- C5: the Release Selector sorts version buckets descending by
component-wise numeric comparison (non-numeric components count as 0):
`["1.9","1.10","2.0"]` sorts to `["2.0","1.10","1.9"]`, not to the
lexicographic `["2.0","1.9","1.10"]`; `"1.10"` keys to `[1,10]` and a
non-numeric component keys to `0`; in general the output is a
`bucketGE`-sorted permutation of the input. -/
theorem release_selector_sort_spec :
    sortVersionsDesc ["1.9", "1.10", "2.0"] = ["2.0", "1.10", "1.9"] ∧
    sortVersionsDesc ["1.9", "1.10", "2.0"] ≠ ["2.0", "1.9", "1.10"] ∧
    versionKey "1.10" = [1, 10] ∧
    versionKey "2.0-rc" = [2, 0] ∧
    ∀ keys : List String,
      List.Sorted bucketGE (sortVersionsDesc keys) ∧ (sortVersionsDesc keys).Perm keys := by
  refine ⟨by decide, by decide, by decide, by decide, fun keys => ⟨?_, ?_⟩⟩
  · exact List.sorted_insertionSort bucketGE keys
  · show (List.insertionSort bucketGE keys).Perm keys
    apply List.perm_insertionSort

theorem fetch_releases_len_le (releases_data : List ReleaseData) (project : Project)
    (settings : RepoSettings) (description : String) :
    (fetch_releases releases_data project settings description).length ≤
      (if project.keep_versions > 0 then project.keep_versions + 1 else 1) := by
  simp only [fetch_releases]
  split
  · refine le_trans (List.length_filterMap_le _ _) ?_
    rw [List.length_take]
    exact min_le_left _ _
  · refine le_trans (List.length_filterMap_le _ _) ?_
    rw [List.length_take]
    exact min_le_left _ _

/-- C6: the Release Selector returns at most `keep_versions + 1` records
when `keep_versions > 0` and at most one when it is 0; on a feed with
five distinct major.minor buckets, all with matching assets,
`keep_versions = 0` yields exactly 1 record and `keep_versions = 2`
yields 3. -/
theorem release_selector_keep_spec :
    (∀ (releases_data : List ReleaseData) (project : Project)
        (settings : RepoSettings) (description : String),
      (0 < project.keep_versions →
        (fetch_releases releases_data project settings description).length ≤
          project.keep_versions + 1) ∧
      (project.keep_versions = 0 →
        (fetch_releases releases_data project settings description).length ≤ 1)) ∧
    (fetch_releases exampleReleases (exampleProject 0) exampleSettings "d").length = 1 ∧
    (fetch_releases exampleReleases (exampleProject 2) exampleSettings "d").length = 3 := by
  refine ⟨?_, by decide, by decide⟩
  intro releases_data project settings description
  constructor
  · intro h
    have hb := fetch_releases_len_le releases_data project settings description
    rwa [if_pos h] at hb
  · intro h
    have hb := fetch_releases_len_le releases_data project settings description
    simp [h] at hb
    exact hb

/-- Witness for `release_selector_keep_spec` with the five-bucket feed
and `keep_versions = 2`. -/
theorem release_selector_keep_spec_witness :
    (fetch_releases exampleReleases (exampleProject 2) exampleSettings "d").length ≤ 3 :=
  (release_selector_keep_spec.1 exampleReleases (exampleProject 2) exampleSettings "d").1
    (by decide)

theorem cleanupLoop_eq (dir_entries current_filenames : List String) :
    cleanupLoop dir_entries current_filenames =
      (dir_entries.filter (fun f => !(pyEndsWith f ".rpm" && !(current_filenames.contains f))),
       dir_entries.filter (fun f => pyEndsWith f ".rpm" && !(current_filenames.contains f))) := by
  induction dir_entries with
  | nil => rfl
  | cons f rest ih =>
    simp only [cleanupLoop, ih, List.filter_cons]
    cases h : pyEndsWith f ".rpm" && !(current_filenames.contains f)
    · simp [h]
    · simp [h]

theorem contains_iff_mem (l : List String) (a : String) :
    l.contains a = true ↔ a ∈ l := by
  induction l with
  | nil => simp [List.contains]
  | cons b bs ih => simp [List.contains] at ih ⊢

/-- C10: the cleanup step removes exactly the `*.rpm` entries of the
packages directory whose name is not a filename of the final package
set; every entry not ending in `.rpm` (e.g. the `repodata` directory)
stays, and the non-`.rpm` part of the directory is unchanged. -/
theorem cleanup_frame_spec (dir_entries : List String) (all_packages : List RpmPackage) :
    (cleanup_old_packages dir_entries all_packages).2 =
      dir_entries.filter (fun f =>
        pyEndsWith f ".rpm" &&
          !((all_packages.map (fun pkg => pkg.filename)).contains f)) ∧
    (∀ f ∈ dir_entries, pyEndsWith f ".rpm" = false →
      f ∈ (cleanup_old_packages dir_entries all_packages).1) ∧
    (cleanup_old_packages dir_entries all_packages).1.filter (fun f => !(pyEndsWith f ".rpm")) =
      dir_entries.filter (fun f => !(pyEndsWith f ".rpm")) := by
  rw [cleanup_old_packages, cleanupLoop_eq]
  refine ⟨rfl, ?_, ?_⟩
  · intro f hf hrpm
    simp [List.mem_filter, hf, hrpm]
  · rw [List.filter_filter]
    apply List.filter_congr
    intro f _
    cases h : pyEndsWith f ".rpm" <;> simp [h]

/-- Witness for `cleanup_frame_spec` on a directory holding a stale rpm,
a current rpm and the repodata entry. -/
theorem cleanup_frame_spec_witness :
    ("repodata" ∈ (cleanup_old_packages ["stale-1.0.x86_64.rpm", "tool-1.0.x86_64.rpm", "repodata"]
        [{ name := "tool", version := "1.0", architecture := "x86_64",
           url := "u", filename := "tool-1.0.x86_64.rpm" }]).1) := by
  have h := (cleanup_frame_spec ["stale-1.0.x86_64.rpm", "tool-1.0.x86_64.rpm", "repodata"]
    [{ name := "tool", version := "1.0", architecture := "x86_64",
       url := "u", filename := "tool-1.0.x86_64.rpm" }]).2.1 "repodata" (by decide) (by decide)
  exact h

/-- C3: a run updating no project and fetching nothing leaves the
manifest unchanged and deletes nothing, for any packages directory whose
rpm entries all belong to the manifest. -/
theorem reconcile_idempotent_spec (existing_packages : List RpmPackage)
    (dir_entries : List String)
    (hdisk : ∀ f ∈ dir_entries, pyEndsWith f ".rpm" = true →
      f ∈ existing_packages.map (fun pkg => pkg.filename)) :
    reconcileFinal existing_packages [] [] = existing_packages ∧
    (cleanup_old_packages dir_entries (reconcileFinal existing_packages [] [])).2 = [] := by
  have h1 : reconcileFinal existing_packages [] [] = existing_packages := by
    simp [reconcileFinal, preservedPackages, List.contains]
  refine ⟨h1, ?_⟩
  rw [h1, cleanup_old_packages, cleanupLoop_eq]
  simp only
  rw [List.filter_eq_nil_iff]
  intro f hf
  cases h : pyEndsWith f ".rpm"
  · simp [h]
  · have hm := hdisk f hf h
    have hc : (existing_packages.map (fun pkg => pkg.filename)).contains f = true :=
      (contains_iff_mem _ _).mpr hm
    intro hcontra
    simp only [h, hc] at hcontra
    exact absurd hcontra (by decide)

/-- Witness for `reconcile_idempotent_spec` at a one-package manifest
with a matching directory. -/
theorem reconcile_idempotent_spec_witness :
    (cleanup_old_packages ["tool-1.0.x86_64.rpm", "repodata"]
      (reconcileFinal [toolPkg] [] [])).2 = [] :=
  (reconcile_idempotent_spec [toolPkg]
    ["tool-1.0.x86_64.rpm", "repodata"] (by decide)).2

/-- C2: updating only project `A` with an empty fetch drops every record
owned by `A` from the manifest (leaving exactly `B`'s records) and marks
every file of `A`'s previous packages for deletion, provided the
manifest's filenames are unique, every record is owned by `A` or `B`,
and `A`'s files are present in the packages directory. -/
theorem reconcile_prune_spec (existing_packages : List RpmPackage) (A B : String)
    (dir_entries : List String)
    (hAB : A ≠ B)
    (hown : ∀ pkg ∈ existing_packages, pkg.project_repo = A ∨ pkg.project_repo = B)
    (hnodup : (existing_packages.map (fun pkg => pkg.filename)).Nodup)
    (hdisk : ∀ pkg ∈ existing_packages, pkg.project_repo = A → pkg.filename ∈ dir_entries)
    (hrpm : ∀ pkg ∈ existing_packages, pkg.project_repo = A →
      pyEndsWith pkg.filename ".rpm" = true) :
    reconcileFinal existing_packages [A] [] =
      existing_packages.filter (fun pkg => pkg.project_repo == B) ∧
    ∀ pkg ∈ existing_packages, pkg.project_repo = A →
      pkg.filename ∈ (cleanup_old_packages dir_entries
        (reconcileFinal existing_packages [A] [])).2 := by
  have h1 : reconcileFinal existing_packages [A] [] =
      existing_packages.filter (fun pkg => pkg.project_repo == B) := by
    simp only [reconcileFinal, List.append_nil, preservedPackages]
    apply List.filter_congr
    intro pkg hp
    rcases hown pkg hp with h | h
    · have c1 : (([A] : List String).contains pkg.project_repo) = true := by
        rw [h]; simp [List.contains]
      have c2 : (pkg.project_repo == B) = false := by
        rw [h]; exact beq_eq_false_iff_ne.mpr hAB
      rw [c1, c2]; rfl
    · have c1 : (([A] : List String).contains pkg.project_repo) = false := by
        rw [h]; simp [List.contains, beq_eq_false_iff_ne]
        exact fun hq => hAB hq.symm
      have c2 : (pkg.project_repo == B) = true := by rw [h]; simp
      rw [c1, c2]; rfl
  refine ⟨h1, ?_⟩
  intro pkg hp hA
  have hmem : pkg.filename ∈ dir_entries := hdisk pkg hp hA
  have hrp : pyEndsWith pkg.filename ".rpm" = true := hrpm pkg hp hA
  have hcn : ((existing_packages.filter (fun q => q.project_repo == B)).map
      (fun q => q.filename)).contains pkg.filename = false := by
    cases hcn : ((existing_packages.filter (fun q => q.project_repo == B)).map
        (fun q => q.filename)).contains pkg.filename
    · rfl
    · exfalso
      have hmm := (contains_iff_mem _ _).mp hcn
      obtain ⟨q, hqmem, hqeq⟩ := List.mem_map.mp hmm
      have hqf := List.mem_filter.mp hqmem
      have hqB : q.project_repo = B := by
        have := hqf.2
        simpa using this
      have hq_eq_pkg : q = pkg :=
        List.inj_on_of_nodup_map hnodup hqf.1 hp hqeq
      rw [hq_eq_pkg] at hqB
      exact hAB (hA ▸ hqB)
  rw [h1, cleanup_old_packages, cleanupLoop_eq]
  refine List.mem_filter.mpr ⟨hmem, ?_⟩
  show (pyEndsWith pkg.filename ".rpm" &&
    !(((existing_packages.filter (fun q => q.project_repo == B)).map
      (fun q => q.filename)).contains pkg.filename)) = true
  rw [hrp, hcn]
  rfl

/-- Witness for `reconcile_prune_spec`: a manifest holding one package of
`owner/a` and one of `owner/b`, updating only `owner/a`. -/
theorem reconcile_prune_spec_witness :
    pkgOwnerA.filename ∈ (cleanup_old_packages ["a-1.0.x86_64.rpm", "b-1.0.x86_64.rpm"]
      (reconcileFinal [pkgOwnerA, pkgOwnerB] ["owner/a"] [])).2 := by
  have h := (reconcile_prune_spec [pkgOwnerA, pkgOwnerB]
    "owner/a" "owner/b" ["a-1.0.x86_64.rpm", "b-1.0.x86_64.rpm"]
    (by decide) (by decide) (by decide) (by decide) (by decide)).2
  exact h pkgOwnerA (by decide) (by decide)

/-- C8 counterexample: reconciliation performs no deduplication, so a
preserved record and a newly fetched record sharing a filename yield a
final package set in which `filename` is not unique. -/
theorem reconcile_filename_dup_counterexample :
    ¬ (((reconcileFinal
        [{ name := "tool", version := "1.0", architecture := "x86_64",
           url := "https://dl/b/tool.rpm", filename := "tool-1.0.x86_64.rpm",
           project_repo := "owner/b" }]
        ["owner/a"]
        [{ name := "tool", version := "1.0", architecture := "x86_64",
           url := "https://dl/a/tool.rpm", filename := "tool-1.0.x86_64.rpm",
           project_repo := "owner/a" }]).map (fun pkg => pkg.filename)).Nodup) := by
  decide

/-- C8 as amended: the final package set has pairwise distinct filenames
iff the preserved records and the newly fetched records each have
pairwise distinct filenames and the two filename sets are disjoint;
reconciliation itself neither deduplicates nor enforces uniqueness. -/
theorem reconcile_filename_nodup_iff (existing_packages : List RpmPackage)
    (projects_to_update : List String) (new_packages : List RpmPackage) :
    ((reconcileFinal existing_packages projects_to_update new_packages).map
        (fun pkg => pkg.filename)).Nodup ↔
      ((preservedPackages existing_packages projects_to_update).map
          (fun pkg => pkg.filename)).Nodup ∧
      (new_packages.map (fun pkg => pkg.filename)).Nodup ∧
      ((preservedPackages existing_packages projects_to_update).map
          (fun pkg => pkg.filename)).Disjoint
        (new_packages.map (fun pkg => pkg.filename)) := by
  simp [reconcileFinal, List.nodup_append]

theorem contains_eq_false_iff_not_mem (l : List String) (a : String) :
    l.contains a = false ↔ a ∉ l := by
  constructor
  · intro h hm
    rw [(contains_iff_mem l a).mpr hm] at h
    exact absurd h (by decide)
  · intro h
    cases hcc : l.contains a
    · rfl
    · exact absurd ((contains_iff_mem l a).mp hcc) h

theorem processPackages_cons_skip (pkg : RpmPackage) (rest : List RpmPackage)
    (dir_entries : List String) (dl : String → Bool) (sE : Bool) (sO : String → Bool)
    (hc : dir_entries.contains pkg.filename = true) :
    processPackages (pkg :: rest) dir_entries dl sE sO =
      (pkg :: (processPackages rest dir_entries dl sE sO).1,
       (processPackages rest dir_entries dl sE sO).2.1,
       (processPackages rest dir_entries dl sE sO).2.2) := by
  have hmem : pkg.filename ∈ dir_entries := (contains_iff_mem _ _).mp hc
  simp [processPackages, hmem]

theorem processPackages_cons_fresh (pkg : RpmPackage) (rest : List RpmPackage)
    (dir_entries : List String) (dl : String → Bool) (sE : Bool) (sO : String → Bool)
    (hc : dir_entries.contains pkg.filename = false) (hdl : dl pkg.url = true) :
    processPackages (pkg :: rest) dir_entries dl sE sO =
      (pkg :: (processPackages rest (pkg.filename :: dir_entries) dl sE sO).1,
       (processPackages rest (pkg.filename :: dir_entries) dl sE sO).2.1,
       (if sE && !(sO pkg.filename) then ["Failed to sign " ++ pkg.filename] else []) ++
         (processPackages rest (pkg.filename :: dir_entries) dl sE sO).2.2) := by
  have hnm : pkg.filename ∉ dir_entries := (contains_eq_false_iff_not_mem _ _).mp hc
  simp [processPackages, hnm, hdl]

theorem processPackages_cons_fail (pkg : RpmPackage) (rest : List RpmPackage)
    (dir_entries : List String) (dl : String → Bool) (sE : Bool) (sO : String → Bool)
    (hc : dir_entries.contains pkg.filename = false) (hdl : dl pkg.url = false) :
    processPackages (pkg :: rest) dir_entries dl sE sO = ([], dir_entries, []) := by
  have hnm : pkg.filename ∉ dir_entries := (contains_eq_false_iff_not_mem _ _).mp hc
  simp [processPackages, hnm, hdl]

theorem processPackages_ok (pkgs : List RpmPackage) (dir_entries : List String)
    (dl : String → Bool) (sE : Bool) (sO : String → Bool)
    (h : ∀ pkg ∈ pkgs, dl pkg.url = true) :
    (processPackages pkgs dir_entries dl sE sO).1 = pkgs ∧
    (∀ f ∈ dir_entries, f ∈ (processPackages pkgs dir_entries dl sE sO).2.1) ∧
    (∀ pkg ∈ pkgs, pkg.filename ∈ (processPackages pkgs dir_entries dl sE sO).2.1) := by
  revert h
  induction pkgs generalizing dir_entries with
  | nil =>
    intro _
    exact ⟨rfl, fun f hf => hf, fun pkg hp => absurd hp (List.not_mem_nil pkg)⟩
  | cons pkg rest ih =>
    intro h
    have hdl : dl pkg.url = true := h pkg (List.mem_cons_self _ _)
    have hrest : ∀ q ∈ rest, dl q.url = true := fun q hq => h q (List.mem_cons_of_mem _ hq)
    cases hc : dir_entries.contains pkg.filename
    · obtain ⟨ih1, ih2, ih3⟩ := ih (pkg.filename :: dir_entries) hrest
      rw [processPackages_cons_fresh pkg rest dir_entries dl sE sO hc hdl]
      refine ⟨by rw [ih1], ?_, ?_⟩
      · intro f hf
        exact ih2 f (List.mem_cons_of_mem _ hf)
      · intro q hq
        rcases List.mem_cons.mp hq with rfl | hq2
        · exact ih2 q.filename (List.mem_cons_self _ _)
        · exact ih3 q hq2
    · obtain ⟨ih1, ih2, ih3⟩ := ih dir_entries hrest
      rw [processPackages_cons_skip pkg rest dir_entries dl sE sO hc]
      refine ⟨by rw [ih1], ih2, ?_⟩
      intro q hq
      rcases List.mem_cons.mp hq with rfl | hq2
      · exact ih2 q.filename ((contains_iff_mem _ _).mp hc)
      · exact ih3 q hq2

theorem processPackages_sign_independent (pkgs : List RpmPackage) (dir_entries : List String)
    (dl : String → Bool) (sE : Bool) (sO sO2 : String → Bool) :
    (processPackages pkgs dir_entries dl sE sO).1 =
      (processPackages pkgs dir_entries dl sE sO2).1 ∧
    (processPackages pkgs dir_entries dl sE sO).2.1 =
      (processPackages pkgs dir_entries dl sE sO2).2.1 := by
  induction pkgs generalizing dir_entries with
  | nil => exact ⟨rfl, rfl⟩
  | cons pkg rest ih =>
    cases hc : dir_entries.contains pkg.filename
    · cases hdl : dl pkg.url
      · rw [processPackages_cons_fail pkg rest dir_entries dl sE sO hc hdl,
          processPackages_cons_fail pkg rest dir_entries dl sE sO2 hc hdl]
        exact ⟨rfl, rfl⟩
      · rw [processPackages_cons_fresh pkg rest dir_entries dl sE sO hc hdl,
          processPackages_cons_fresh pkg rest dir_entries dl sE sO2 hc hdl]
        obtain ⟨i1, i2⟩ := ih (pkg.filename :: dir_entries)
        exact ⟨by rw [i1], by rw [i2]⟩
    · rw [processPackages_cons_skip pkg rest dir_entries dl sE sO hc,
        processPackages_cons_skip pkg rest dir_entries dl sE sO2 hc]
      obtain ⟨i1, i2⟩ := ih dir_entries
      exact ⟨by rw [i1], by rw [i2]⟩

theorem processPackages_append_ok (pre l : List RpmPackage) (dir_entries : List String)
    (dl : String → Bool) (sE : Bool) (sO : String → Bool)
    (hpre : ∀ q ∈ pre, dl q.url = true) :
    (processPackages (pre ++ l) dir_entries dl sE sO).1 =
      pre ++ (processPackages l (processPackages pre dir_entries dl sE sO).2.1 dl sE sO).1 ∧
    (processPackages (pre ++ l) dir_entries dl sE sO).2.1 =
      (processPackages l (processPackages pre dir_entries dl sE sO).2.1 dl sE sO).2.1 := by
  revert hpre
  induction pre generalizing dir_entries with
  | nil =>
    intro _
    exact ⟨rfl, rfl⟩
  | cons q pre ih =>
    intro hpre
    have hq : dl q.url = true := hpre q (List.mem_cons_self _ _)
    have hre : ∀ x ∈ pre, dl x.url = true := fun x hx => hpre x (List.mem_cons_of_mem _ hx)
    cases hc : dir_entries.contains q.filename
    · rw [List.cons_append,
        processPackages_cons_fresh q (pre ++ l) dir_entries dl sE sO hc hq,
        processPackages_cons_fresh q pre dir_entries dl sE sO hc hq]
      obtain ⟨i1, i2⟩ := ih (q.filename :: dir_entries) hre
      exact ⟨by rw [i1, List.cons_append], by rw [i2]⟩
    · rw [List.cons_append,
        processPackages_cons_skip q (pre ++ l) dir_entries dl sE sO hc,
        processPackages_cons_skip q pre dir_entries dl sE sO hc]
      obtain ⟨i1, i2⟩ := ih dir_entries hre
      exact ⟨by rw [i1, List.cons_append], by rw [i2]⟩

/-- C4 counterexample: in a project whose first package's download fails
while the second's would succeed, the second package is also excluded
from the fetch result (the exception skips the project's remainder), and
a package whose signing fails is NOT excluded — both contradicting the
claim that only the failing package is excluded and processing continues
with the remaining packages of the project. -/
theorem fetch_abort_counterexample :
    (processPackages [pkgFirst, pkgSecond] [] (fun u => !(u == "u1")) false
      (fun _ => true)).1 = [] ∧
    (fun u : String => !(u == "u1")) pkgSecond.url = true ∧
    (processPackages [pkgFirst] [] (fun _ => true) true (fun _ => false)).1 = [pkgFirst] := by
  decide

/-- C4 as amended: when the downloads of an initial segment of a
project's packages succeed and the next package's file is absent and its
download fails, the fetch result for the project is exactly that initial
segment — the failing package and every later package of the project are
excluded, the earlier ones are kept; the set of fetched packages never
depends on signing outcomes (a signing failure is only logged). -/
theorem fetch_failure_aborts_project_spec (pre : List RpmPackage) (pkg : RpmPackage)
    (rest : List RpmPackage) (dir_entries : List String) (dl : String → Bool)
    (sE : Bool) (sO : String → Bool)
    (hpre : ∀ q ∈ pre, dl q.url = true)
    (hfresh : (processPackages pre dir_entries dl sE sO).2.1.contains pkg.filename = false)
    (hfail : dl pkg.url = false) :
    (processPackages (pre ++ pkg :: rest) dir_entries dl sE sO).1 = pre ∧
    ∀ sO2 : String → Bool,
      (processPackages (pre ++ pkg :: rest) dir_entries dl sE sO2).1 =
        (processPackages (pre ++ pkg :: rest) dir_entries dl sE sO).1 := by
  constructor
  · have happ := (processPackages_append_ok pre (pkg :: rest) dir_entries dl sE sO hpre).1
    rw [happ, processPackages_cons_fail pkg rest
      (processPackages pre dir_entries dl sE sO).2.1 dl sE sO hfresh hfail]
    exact List.append_nil pre
  · intro sO2
    exact (processPackages_sign_independent (pre ++ pkg :: rest) dir_entries dl sE sO2 sO).1

/-- Witness for `fetch_failure_aborts_project_spec`: the first package
downloads, the second fails, so the result is exactly the first. -/
theorem fetch_failure_aborts_project_spec_witness :
    (processPackages ([pkgFirst] ++ pkgSecond :: []) [] (fun u => u == "u1") false
      (fun _ => true)).1 = [pkgFirst] :=
  (fetch_failure_aborts_project_spec [pkgFirst] pkgSecond [] [] (fun u => u == "u1")
    false (fun _ => true) (by decide) (by decide) (by decide)).1

/-- C1: after a non-dry run in which the preserved records' files were
on disk and every processed package's download succeeded (and every
final record's filename carries the `.rpm` suffix the pipeline always
produces), the `.rpm` entries remaining in the packages directory after
cleanup are exactly the filenames of the final package set written to
the manifest. -/
theorem run_invariant_spec (existing_packages : List RpmPackage)
    (projects_to_update : List String) (to_fetch : List RpmPackage)
    (dir_entries : List String) (dl : String → Bool) (sE : Bool) (sO : String → Bool)
    (hok : ∀ pkg ∈ to_fetch, dl pkg.url = true)
    (hpres : ∀ pkg ∈ preservedPackages existing_packages projects_to_update,
      pkg.filename ∈ dir_entries)
    (hrpm : ∀ pkg ∈ reconcileFinal existing_packages projects_to_update
        (processPackages to_fetch dir_entries dl sE sO).1,
      pyEndsWith pkg.filename ".rpm" = true) :
    ∀ f : String,
      (f ∈ (cleanup_old_packages (processPackages to_fetch dir_entries dl sE sO).2.1
            (reconcileFinal existing_packages projects_to_update
              (processPackages to_fetch dir_entries dl sE sO).1)).1 ∧
        pyEndsWith f ".rpm" = true) ↔
      f ∈ (reconcileFinal existing_packages projects_to_update
            (processPackages to_fetch dir_entries dl sE sO).1).map
          (fun pkg => pkg.filename) := by
  obtain ⟨hfst, hsub, hnew⟩ := processPackages_ok to_fetch dir_entries dl sE sO hok
  intro f
  constructor
  · rintro ⟨hin, hrf⟩
    rw [cleanup_old_packages, cleanupLoop_eq] at hin
    have hflt := (List.mem_filter.mp hin).2
    cases hc : ((reconcileFinal existing_packages projects_to_update
        (processPackages to_fetch dir_entries dl sE sO).1).map
          (fun pkg => pkg.filename)).contains f
    · exfalso
      simp only [hrf, hc] at hflt
      exact absurd hflt (by decide)
    · exact (contains_iff_mem _ _).mp hc
  · intro hmemF
    refine ⟨?_, ?_⟩
    · rw [cleanup_old_packages, cleanupLoop_eq]
      refine List.mem_filter.mpr ⟨?_, ?_⟩
      · obtain ⟨pkg, hpkg, hfe⟩ := List.mem_map.mp hmemF
        have hsplit : pkg ∈ preservedPackages existing_packages projects_to_update ∨
            pkg ∈ (processPackages to_fetch dir_entries dl sE sO).1 := by
          have hpkg2 := hpkg
          simp only [reconcileFinal] at hpkg2
          exact List.mem_append.mp hpkg2
        rcases hsplit with hl | hr
        · rw [← hfe] at *
          exact hsub pkg.filename (hpres pkg hl)
        · rw [← hfe]
          rw [hfst] at hr
          exact hnew pkg hr
      · have hc : ((reconcileFinal existing_packages projects_to_update
            (processPackages to_fetch dir_entries dl sE sO).1).map
              (fun pkg => pkg.filename)).contains f = true :=
          (contains_iff_mem _ _).mpr hmemF
        show (!(pyEndsWith f ".rpm" &&
          !(((reconcileFinal existing_packages projects_to_update
            (processPackages to_fetch dir_entries dl sE sO).1).map
              (fun pkg => pkg.filename)).contains f))) = true
        rw [hc]
        simp
    · obtain ⟨pkg, hpkg, hfe⟩ := List.mem_map.mp hmemF
      rw [← hfe]
      exact hrpm pkg hpkg

/-- Witness for `run_invariant_spec`: one preserved package of `owner/b`
on disk, one freshly fetched package of `owner/a`, every download
succeeding. -/
theorem run_invariant_spec_witness :
    (pkgOwnerA.filename ∈ (cleanup_old_packages
          (processPackages [pkgOwnerA] ["b-1.0.x86_64.rpm"] (fun _ => true) false
            (fun _ => true)).2.1
          (reconcileFinal [pkgOwnerB] ["owner/a"]
            (processPackages [pkgOwnerA] ["b-1.0.x86_64.rpm"] (fun _ => true) false
              (fun _ => true)).1)).1 ∧
      pyEndsWith pkgOwnerA.filename ".rpm" = true) ↔
    pkgOwnerA.filename ∈ (reconcileFinal [pkgOwnerB] ["owner/a"]
        (processPackages [pkgOwnerA] ["b-1.0.x86_64.rpm"] (fun _ => true) false
          (fun _ => true)).1).map (fun pkg => pkg.filename) :=
  run_invariant_spec [pkgOwnerB] ["owner/a"] [pkgOwnerA] ["b-1.0.x86_64.rpm"]
    (fun _ => true) false (fun _ => true) (by decide) (by decide) (by decide)
    pkgOwnerA.filename

theorem ne_repo_gpgcheck_of_head {s : String} {a : Char} {sa : List Char}
    (hs : s.data = a :: sa) (ha : a ≠ 'r') (r : String) :
    s ≠ "repo_gpgcheck" ++ r := by
  intro h
  apply ha
  have hd : s.data = ("repo_gpgcheck" ++ r).data := by rw [h]
  rw [String.data_append, hs] at hd
  have hd2 : a :: sa = 'r' :: ("epo_gpgcheck".data ++ r.data) := hd
  exact (List.cons_eq_cons.mp hd2).1

/-- C9: the descriptor's GPG stanza is exactly one of three templates:
no (truthy) key gives `gpgcheck=0` with no `repo_gpgcheck` line at all,
a key with `sign_packages=false` gives `gpgcheck=0`, `repo_gpgcheck=1`
and a `gpgkey` line, a key with `sign_packages=true` gives `gpgcheck=1`,
`repo_gpgcheck=1` and a `gpgkey` line; and the `baseurl` line is always
the configured base URL (trailing slashes stripped) with `/packages`
appended. -/
theorem repo_file_gpg_spec (settings : RepoSettings) (gpg_key : Option String) (sp : Bool) :
    ("baseurl=" ++ (rstripSlash settings.baseurl ++ "/packages")) ∈
      generate_repo_file settings gpg_key sp ∧
    (gpgKeyTruthy gpg_key = false →
      generate_repo_file settings gpg_key sp =
        ["[" ++ settings.name ++ "]",
         "name=" ++ settings.description,
         "baseurl=" ++ (rstripSlash settings.baseurl ++ "/packages"),
         "enabled=1",
         "gpgcheck=0"] ∧
      ∀ l ∈ generate_repo_file settings gpg_key sp, ∀ r : String,
        l ≠ "repo_gpgcheck" ++ r) ∧
    (gpgKeyTruthy gpg_key = true → sp = false →
      generate_repo_file settings gpg_key sp =
        ["[" ++ settings.name ++ "]",
         "name=" ++ settings.description,
         "baseurl=" ++ (rstripSlash settings.baseurl ++ "/packages"),
         "enabled=1",
         "gpgcheck=0", "repo_gpgcheck=1",
         "gpgkey=" ++ settings.baseurl ++ "/RPM-GPG-KEY-" ++ settings.name]) ∧
    (gpgKeyTruthy gpg_key = true → sp = true →
      generate_repo_file settings gpg_key sp =
        ["[" ++ settings.name ++ "]",
         "name=" ++ settings.description,
         "baseurl=" ++ (rstripSlash settings.baseurl ++ "/packages"),
         "enabled=1",
         "gpgcheck=1", "repo_gpgcheck=1",
         "gpgkey=" ++ settings.baseurl ++ "/RPM-GPG-KEY-" ++ settings.name]) := by
  refine ⟨?_, ?_, ?_, ?_⟩
  · simp [generate_repo_file]
  · intro hk
    have hG : generate_repo_file settings gpg_key sp =
        ["[" ++ settings.name ++ "]",
         "name=" ++ settings.description,
         "baseurl=" ++ (rstripSlash settings.baseurl ++ "/packages"),
         "enabled=1",
         "gpgcheck=0"] := by
      simp [generate_repo_file, hk]
    refine ⟨hG, ?_⟩
    rw [hG]
    intro l hl r
    simp only [List.mem_cons, List.not_mem_nil, or_false] at hl
    rcases hl with rfl | rfl | rfl | rfl | rfl
    · have hs : ("[" ++ settings.name ++ "]").data =
          '[' :: (settings.name.data ++ "]".data) := by
        rw [String.data_append, String.data_append]
        rfl
      exact ne_repo_gpgcheck_of_head hs (by decide) r
    · have hs : ("name=" ++ settings.description).data =
          'n' :: ('a' :: 'm' :: 'e' :: '=' :: settings.description.data) := by
        rw [String.data_append]
        rfl
      exact ne_repo_gpgcheck_of_head hs (by decide) r
    · have hs : ("baseurl=" ++ (rstripSlash settings.baseurl ++ "/packages")).data =
          'b' :: ('a' :: 's' :: 'e' :: 'u' :: 'r' :: 'l' :: '=' ::
            (rstripSlash settings.baseurl ++ "/packages").data) := by
        rw [String.data_append]
        rfl
      exact ne_repo_gpgcheck_of_head hs (by decide) r
    · have hs : ("enabled=1" : String).data = 'e' :: "nabled=1".data := rfl
      exact ne_repo_gpgcheck_of_head hs (by decide) r
    · have hs : ("gpgcheck=0" : String).data = 'g' :: "pgcheck=0".data := rfl
      exact ne_repo_gpgcheck_of_head hs (by decide) r
  · intro hk hsp
    simp [generate_repo_file, hk, hsp]
  · intro hk hsp
    simp [generate_repo_file, hk, hsp]

/-- Witness for `repo_file_gpg_spec` with no GPG key: the full
descriptor with `gpgcheck=0` and no `repo_gpgcheck` line. -/
theorem repo_file_gpg_spec_witness :
    generate_repo_file exSettings none true =
      ["[gp]", "name=desc", "baseurl=http://x/packages", "enabled=1", "gpgcheck=0"] := by
  have h := ((repo_file_gpg_spec exSettings none true).2.1 (by decide)).1
  rw [h]
  decide

end RpmRepo
